import Mathlib

/-
Verification development for the Swift2 engine core: the World class
(entity persistence, script attachment, tick loop) from src/World/World.cpp,
the Lua binding Selection from src/Scripting/Script.hpp, and the TestWorld
tick from src/World/Worlds/TestWorld.cpp. C++ std::map and std::unordered_map
values are modelled as association lists in iteration order; machine pointers
are modelled as numeric identities; the XML documents handled by tinyxml2 are
modelled as a tree of named elements with text and children.
-/

/-- An std::map from std::string to std::string, modelled as an association
list in iteration order with distinct keys. -/
abbrev StrMap := List (String × String)

/-- Semantics of std::map emplace: insert only when the key is absent, keep
the existing entry otherwise. -/
def mapEmplace (m : StrMap) (k v : String) : StrMap :=
  if k ∈ m.map Prod.fst then m else m ++ [(k, v)]

/-- Modelled from the spec: a Component is observed through its serialized
field map (serialize returns an ordered field-name to string-value mapping and
unserialize rebuilds the component from the same mapping, the round trip being
the identity by the contract of section 3); the component state is therefore
represented by that mapping directly. The Component subclasses live outside
the provided sources (only Physical.hpp declarations are given). -/
abbrev ComponentData := StrMap

/-- Modelled from the spec: the per-entity Component Store, a mapping from
type name to owned component, ordered for deterministic serialization.
Entity.cpp is not among the provided sources. -/
structure Entity where
  components : List (String × ComponentData)
deriving DecidableEq, Repr

/-- Modelled from the spec: Entity add(typeName) constructs a fresh component
of the named type when none of that name exists, and is a no-op returning the
existing one otherwise (section 4.4 idempotence). A fresh component has an
empty serialized map. -/
def Entity.add (e : Entity) (n : String) : Entity :=
  if n ∈ e.components.map Prod.fst then e
  else { components := e.components ++ [(n, [])] }

/-- Modelled from the spec: get(name) followed by unserialize(vars) replaces
the stored field mapping of the component named n with vars. -/
def Entity.unserializeComponent (e : Entity) (n : String) (vars : StrMap) : Entity :=
  { components := e.components.map (fun p => if p.1 = n then (p.1, vars) else p) }

/-- An XML element as handled through tinyxml2 in World.cpp: a name, the
contained text, and the list of child elements. -/
structure XMLElem where
  name : String
  text : String
  children : List XMLElem

/-- One serialized component variable, as written by World::save: an element
named by the field name whose text is the field value. -/
def fieldToXML (p : String × String) : XMLElem :=
  ⟨p.1, p.2, []⟩

/-- One serialized component, as written by World::save: an element named by
the component type name holding one child per serialized variable. -/
def compToXML (c : String × ComponentData) : XMLElem :=
  ⟨c.1, "", c.2.map fieldToXML⟩

/-- One serialized entity, as written by World::save. -/
def entityToXML (e : Entity) : XMLElem :=
  ⟨"entity", "", e.components.map compToXML⟩

/-- Modelled from the spec: a Script instance carries a done flag (deleteMe,
read by toDelete) and a weak back-reference to its current World, null when
unattached. Script.cpp is not among the provided sources; the header
src/Scripting/Script.hpp declares exactly these observables. Worlds are
identified by a numeric identity standing for the object address. -/
structure Script where
  deleteMe : Bool
  world : Option Nat
deriving DecidableEq, Repr

/-- Script::toDelete from the header contract: reports the done flag. -/
def Script.toDelete (s : Script) : Bool :=
  s.deleteMe

/-- Script::setWorld: store the given world reference (or null). -/
def Script.setWorld (s : Script) (w : Option Nat) : Script :=
  { s with world := w }

/-- The AssetManager script table: file name to script state, in iteration
order. World holds shared non-owning references into this table. -/
abbrev Store := List (String × Script)

/-- Look up the script stored under a file name. -/
def storeGet (st : Store) (k : String) : Option Script :=
  (st.find? (fun p => p.1 == k)).map Prod.snd

/-- Update the script stored under a file name in place. -/
def storeSet (st : Store) (k : String) (f : Script → Script) : Store :=
  st.map (fun p => if p.1 = k then (p.1, f p.2) else p)

/-- The World state of World.cpp restricted to the observables of the claims:
a numeric identity (the object address), the owned ordered entity sequence,
the keys of the script mapping in iteration order, and the referenced
AssetManager script table. -/
structure World where
  wid : Nat
  entities : List Entity
  scripts : List String
  store : Store
deriving DecidableEq, Repr

/-- Lines 148 to 157 of World::save: find the first element named world;
when absent create one and insert it first, when present delete all of its
children; then the entity records are appended as its children. -/
def replaceWorldRoot : List XMLElem → List XMLElem → List XMLElem
  | [], _ => []
  | e :: rest, cs =>
    if e.name = "world" then ⟨"world", "", cs⟩ :: rest
    else e :: replaceWorldRoot rest cs

/-- The document rewrite performed by World::save on the loaded document:
replace the children of the first world root, or insert a fresh root first
when none exists. -/
def saveDoc (doc : List XMLElem) (cs : List XMLElem) : List XMLElem :=
  match doc.find? (fun e => e.name == "world") with
  | none => ⟨"world", "", cs⟩ :: doc
  | some _ => replaceWorldRoot doc cs

/-- World::save. The file system argument holds the parse result of the
destination document (none when LoadFile fails), and writable tells whether
the final SaveFile write succeeds. The function mirrors the source: it
returns false when the pre-load of the destination fails, rewrites the
document otherwise, and returns true without consulting the result of the
write (line 180 discards it). The world state is returned unchanged: the
method reads the entity sequence only. -/
def World.save (w : World) (fs : Option (List XMLElem)) (writable : Bool) :
    Bool × World × Option (List XMLElem) :=
  match fs with
  | none => (false, w, none)
  | some doc =>
    let newDoc := saveDoc doc (w.entities.map entityToXML)
    (true, w, if writable then some newDoc else some doc)

/-- The variables map built by World::load for one component element: each
child element whose name and text are both non-empty is emplaced into an
std::map keyed by the element name with the element text as value. -/
def varsOf (children : List XMLElem) : StrMap :=
  children.foldl
    (fun m v => if v.name ≠ "" ∧ v.text ≠ "" then mapEmplace m v.name v.text else m) []

/-- The body of the component loop of World::load: add the component by the
element name, build the variables map, unserialize it into the component.
The Drawable fixup on line 124 only rebinds the render sprite texture and
touches no serialized field, so it is invisible in this state. -/
def loadComponent (e : Entity) (c : XMLElem) : Entity :=
  (e.add c.name).unserializeComponent c.name (varsOf c.children)

/-- The entity built by one iteration of the entity loop of World::load:
a fresh entity from addEntity, populated component element by component
element in document order. -/
def loadEntityElem (x : XMLElem) : Entity :=
  x.children.foldl loadComponent ⟨[]⟩

/-- World::load. Fails when the document cannot be parsed (none) or lacks a
world root; otherwise appends one entity per element named entity among the
root children, populated in document order. -/
def World.load (w : World) (fs : Option (List XMLElem)) : Bool × World :=
  match fs with
  | none => (false, w)
  | some doc =>
    match doc.find? (fun e => e.name == "world") with
    | none => (false, w)
    | some root =>
      (true,
        (root.children.filter (fun e => e.name == "entity")).foldl
          (fun w? x => { w? with entities := w?.entities ++ [loadEntityElem x] }) w)

/-- World::removeEntity, lines 218 to 228: reject an index at or past the
end, or a negative index reaching before the begin; otherwise erase at the
index, counted from the end when negative. -/
def World.removeEntity (w : World) (e : Int) : Bool × World :=
  if (w.entities.length : Int) ≤ e ∨ (w.entities.length : Int) + e < 0 then
    (false, w)
  else if 0 ≤ e then
    (true, { w with entities := w.entities.eraseIdx e.toNat })
  else
    (true, { w with entities := w.entities.eraseIdx ((w.entities.length : Int) + e).toNat })

/-- World::addScript, lines 230 to 240: when the file name is not yet a key
of the script mapping, insert it, point the stored script instance at this
world, and return true; otherwise return false and change nothing. -/
def World.addScript (w : World) (file : String) : Bool × World :=
  if file ∈ w.scripts then (false, w)
  else
    (true,
      { w with
        scripts := w.scripts ++ [file],
        store := storeSet w.store file (fun s => s.setWorld (some w.wid)) })

/-- World::removeScript, lines 242 to 251: erase the key from the script
mapping when present and report whether it was. The stored script instance
is not touched, in particular its world reference is left as it was. -/
def World.removeScript (w : World) (file : String) : Bool × World :=
  if file ∈ w.scripts then
    (true, { w with scripts := w.scripts.erase file })
  else (false, w)

/-- Lines 47 to 48 of World::update: reattach the script when its world
reference differs from this world. -/
def attachStep (wid : Nat) (s : Script) : Script :=
  if s.world ≠ some wid then s.setWorld (some wid) else s

/-- Whether the script stored under a file name reports toDelete. -/
def doneInStore (st : Store) (file : String) : Bool :=
  match storeGet st file with
  | some s => s.toDelete
  | none => false

/-- The script phase of World::update, lines 43 to 61: for each mapped
script, reattach it when needed and run its update (the update of a script
mutates only the state of that script, modelled by beh); then collect every
script whose toDelete reads true and remove each from the mapping through
removeScript. -/
def tickScripts (beh : String → Script → Script) (w : World) : World :=
  let st := w.scripts.foldl
    (fun st file => storeSet (storeSet st file (attachStep w.wid)) file (beh file)) w.store
  let done := w.scripts.filter (fun file => doneInStore st file)
  done.foldl (fun w? file => (w?.removeScript file).2) { w with store := st }

/-- Modelled from the spec: the three scheduler passes are per-entity and
stateless between entities (section 4.4); the system sources are not among
the provided files, so each pass is an arbitrary per-entity function. The
entity loop of World::update, lines 36 to 41, runs the move, physical and
draw updates on each entity in sequence. -/
def sysTick (move phys draw : Entity → Entity) (es : List Entity) : List Entity :=
  es.map (fun e => draw (phys (move e)))

/-- Whether the entity has a Physical component. -/
def hasPhysical (e : Entity) : Bool :=
  e.components.any (fun p => p.1 == "Physical")

/-- The world-bound clamping and collision response of the physical pass in
TestWorld::update: the entire body is commented out in the source, so the
step is the identity. -/
def physicalStub (e : Entity) : Entity :=
  e

/-- The entity loop of TestWorld::update: move update, physical update, the
stubbed bound and collision block guarded by hasPhysical, then draw update. -/
def testWorldTick (move phys draw : Entity → Entity) (es : List Entity) : List Entity :=
  es.map (fun e =>
    let e1 := move e
    let e2 := phys e1
    let e3 := if hasPhysical e2 then physicalStub e2 else e2
    draw e3)

/-- World::update, lines 34 to 62: the scheduler pass over all entities
followed by the script phase. -/
def World.update (move phys draw : Entity → Entity) (beh : String → Script → Script)
    (w : World) : World :=
  tickScripts beh { w with entities := sysTick move phys draw w.entities }

/-- The script detachment block of the World destructor, lines 23 to 26:
set the world reference of every mapped script to null. The destructor also
calls save first, which does not touch any script. -/
def worldDtorDetach (w : World) : Store :=
  w.scripts.foldl (fun st file => storeSet st file (fun s => s.setWorld none)) w.store

/-- The invariant claimed for script attachment: every stored script whose
world reference points at this world is listed in the script mapping. -/
def scriptWorldInv (w : World) : Prop :=
  ∀ p ∈ w.store, p.2.world = some w.wid → p.1 ∈ w.scripts

instance (w : World) : Decidable (scriptWorldInv w) := by
  unfold scriptWorldInv; infer_instance

/-- The state of an lpp::Selection: its name and stack index. -/
structure Selection where
  name : String
  index : Int
deriving DecidableEq, Repr

/-- The outcome of lua_pcall as observed by Selection call: either a number
of results left on the stack, or an error with the interpreter message. -/
inductive PCall where
  | ok (nrets : Nat)
  | err (msg : String)
deriving DecidableEq, Repr

/-- The outcome of a host-layer Selection call: either a Selection returned
to the host caller, or a fatal interpreter abort. -/
inductive CallOutcome where
  | ret (s : Selection)
  | fatal (msg : String)
deriving DecidableEq, Repr

/-- Whether the outcome returns control to the host caller. -/
def CallOutcome.isRet : CallOutcome → Bool
  | .ret _ => true
  | .fatal _ => false

/-- Semantics of luaL_error as invoked from the host layer with no enclosing
protected frame (the Selection call operator is reached from host code such
as Script::update, outside any lua_pcall): lua_error unwinds to the panic
handler and the process aborts. The message is the text handed to
luaL_error. -/
def luaRaise (msg : String) : CallOutcome :=
  .fatal msg

/-- Selection call, src/Scripting/Script.hpp lines 166 to 190: run the named
global under lua_pcall; on error read the interpreter message and re-raise
it with luaL_error; on success return a Selection over the results, unnamed
when there are none. -/
def Selection.call (name : String) (pc : PCall) : CallOutcome :=
  match pc with
  | .err msg => luaRaise msg
  | .ok nrets =>
    if nrets = 0 then .ret ⟨"", 0⟩
    else .ret ⟨name ++ " return", -(nrets : Int)⟩

/-- The FunctionsMap of the Callable Registry: name to callable entry, the
entry identity abstracted as a number. -/
abbrev FunctionsMap := List (String × Nat)

/-- The registration performed by the Selection assignment operators, lines
207 to 218: emplace into an std::unordered_map, which inserts only when the
key is absent and keeps the existing entry otherwise. -/
def registerFunc (m : FunctionsMap) (name : String) (f : Nat) : FunctionsMap :=
  if name ∈ m.map Prod.fst then m else m ++ [(name, f)]

/-- Lookup of a callable entry by name in the registry. -/
def lookupFunc (m : FunctionsMap) (name : String) : Option Nat :=
  (m.find? (fun p => p.1 == name)).map Prod.snd

theorem storeGet_storeSet_same (st : Store) (k : String) (f : Script → Script) :
    storeGet (storeSet st k f) k = (storeGet st k).map f := by
  induction st with
  | nil => rfl
  | cons p rest ih =>
    rcases p with ⟨a, s⟩
    by_cases h : a = k
    · subst h
      unfold storeGet storeSet
      rw [List.map_cons, if_pos rfl,
        List.find?_cons_of_pos _ (by simp), List.find?_cons_of_pos _ (by simp)]
      rfl
    · unfold storeGet storeSet
      rw [List.map_cons, if_neg h,
        List.find?_cons_of_neg _ (by simpa using h),
        List.find?_cons_of_neg _ (by simpa using h)]
      exact ih

theorem storeGet_storeSet_other (st : Store) (k k' : String) (f : Script → Script)
    (h : k ≠ k') : storeGet (storeSet st k f) k' = storeGet st k' := by
  induction st with
  | nil => rfl
  | cons p rest ih =>
    rcases p with ⟨a, s⟩
    by_cases hp : a = k
    · subst hp
      unfold storeGet storeSet
      rw [List.map_cons, if_pos rfl,
        List.find?_cons_of_neg _ (by simpa using h),
        List.find?_cons_of_neg _ (by simpa using h)]
      exact ih
    · unfold storeGet storeSet
      rw [List.map_cons, if_neg hp]
      by_cases hq : a = k'
      · subst hq
        rw [List.find?_cons_of_pos _ (by simp), List.find?_cons_of_pos _ (by simp)]
      · rw [List.find?_cons_of_neg _ (by simpa using hq),
          List.find?_cons_of_neg _ (by simpa using hq)]
        exact ih

theorem foldl_storeGet_notMem (F : Store → String → Store) (k : String)
    (hF : ∀ st f, f ≠ k → storeGet (F st f) k = storeGet st k) :
    ∀ (L : List String) (st : Store), k ∉ L →
      storeGet (L.foldl F st) k = storeGet st k := by
  intro L
  induction L with
  | nil => intro st _; rfl
  | cons a rest ih =>
    intro st hk
    rw [List.foldl_cons, ih _ (fun h => hk (List.mem_cons_of_mem a h))]
    exact hF st a (fun h => hk (h ▸ List.mem_cons_self a rest))

theorem foldl_storeGet_mem (F : Store → String → Store) (k : String) (g : Script → Script)
    (hF : ∀ st f, f ≠ k → storeGet (F st f) k = storeGet st k)
    (hFk : ∀ st, storeGet (F st k) k = (storeGet st k).map g) :
    ∀ (L : List String) (st : Store), L.Nodup → k ∈ L →
      storeGet (L.foldl F st) k = (storeGet st k).map g := by
  intro L
  induction L with
  | nil => intro st _ h; cases h
  | cons a rest ih =>
    intro st hnd hk
    rw [List.foldl_cons]
    rcases List.mem_cons.mp hk with rfl | hmem
    · rw [foldl_storeGet_notMem F k hF rest _ (List.Nodup.not_mem hnd), hFk]
    · rw [ih _ (List.Nodup.of_cons hnd) hmem]
      have ha : a ≠ k := fun h => (List.Nodup.not_mem hnd) (h ▸ hmem)
      rw [hF st a ha]

theorem removeScript_entities (w : World) (f : String) :
    (w.removeScript f).2.entities = w.entities := by
  unfold World.removeScript; split <;> rfl

theorem removeScript_store (w : World) (f : String) :
    (w.removeScript f).2.store = w.store := by
  unfold World.removeScript; split <;> rfl

theorem removeScript_wid (w : World) (f : String) :
    (w.removeScript f).2.wid = w.wid := by
  unfold World.removeScript; split <;> rfl

theorem removeScript_scripts (w : World) (f : String) :
    (w.removeScript f).2.scripts = w.scripts.erase f := by
  unfold World.removeScript
  split
  · rfl
  · next h => rw [List.erase_of_not_mem h]

theorem foldl_removeScript_entities (L : List String) (w : World) :
    (L.foldl (fun w? f => (w?.removeScript f).2) w).entities = w.entities := by
  induction L generalizing w with
  | nil => rfl
  | cons a rest ih => rw [List.foldl_cons, ih, removeScript_entities]

theorem foldl_removeScript_store (L : List String) (w : World) :
    (L.foldl (fun w? f => (w?.removeScript f).2) w).store = w.store := by
  induction L generalizing w with
  | nil => rfl
  | cons a rest ih => rw [List.foldl_cons, ih, removeScript_store]

theorem foldl_removeScript_wid (L : List String) (w : World) :
    (L.foldl (fun w? f => (w?.removeScript f).2) w).wid = w.wid := by
  induction L generalizing w with
  | nil => rfl
  | cons a rest ih => rw [List.foldl_cons, ih, removeScript_wid]

theorem foldl_removeScript_scripts (L : List String) (w : World) :
    (L.foldl (fun w? f => (w?.removeScript f).2) w).scripts =
      L.foldl (fun l f => l.erase f) w.scripts := by
  induction L generalizing w with
  | nil => rfl
  | cons a rest ih =>
    rw [List.foldl_cons, List.foldl_cons, ih]
    congr 1
    exact removeScript_scripts w a

theorem not_mem_foldl_erase (L : List String) (l : List String) (k : String)
    (h : k ∉ l) : k ∉ L.foldl (fun l? f => l?.erase f) l := by
  induction L generalizing l with
  | nil => exact h
  | cons a rest ih =>
    rw [List.foldl_cons]
    exact ih _ (fun hm => h (List.mem_of_mem_erase hm))

theorem mem_foldl_erase_out (L : List String) (l : List String) (k : String)
    (hnd : l.Nodup) (hk : k ∈ L) : k ∉ L.foldl (fun l? f => l?.erase f) l := by
  induction L generalizing l with
  | nil => cases hk
  | cons a rest ih =>
    rw [List.foldl_cons]
    rcases List.mem_cons.mp hk with rfl | hmem
    · exact not_mem_foldl_erase rest _ k (List.Nodup.not_mem_erase hnd)
    · exact ih _ (List.Nodup.erase a hnd) hmem

theorem tickScripts_entities (beh : String → Script → Script) (w : World) :
    (tickScripts beh w).entities = w.entities := by
  unfold tickScripts
  rw [foldl_removeScript_entities]

/-- C6: in every World tick the scheduler runs the movement pass, the
physical pass and the draw pass in that fixed order, each pass visiting
every live entity exactly once with no cross-entity dependency within a
pass, and the world-bound clamping and collision response of the physical
pass (the TestWorld stub) are no-ops. -/
theorem scheduler_fixed_order (move phys draw : Entity → Entity)
    (beh : String → Script → Script) (w : World) :
    (World.update move phys draw beh w).entities =
      ((w.entities.map move).map phys).map draw ∧
    testWorldTick move phys draw w.entities = sysTick move phys draw w.entities := by
  constructor
  · rw [World.update, tickScripts_entities]
    simp [sysTick, List.map_map, Function.comp]
  · simp [testWorldTick, sysTick, physicalStub]

/-- C9: removeEntity returns false and leaves the entity sequence unchanged
exactly when the index is at least the entity count or the count plus the
index is negative; otherwise it removes exactly the entity at that index,
counted from the end of the sequence when negative, and returns true. -/
theorem removeEntity_spec (w : World) (e : Int) :
    w.removeEntity e =
      if (w.entities.length : Int) ≤ e ∨ (w.entities.length : Int) + e < 0 then
        (false, w)
      else
        (true,
          { w with entities := (w.entities.take (if 0 ≤ e then e.toNat
              else ((w.entities.length : Int) + e).toNat)) ++ (w.entities.drop
              ((if 0 ≤ e then e.toNat else ((w.entities.length : Int) + e).toNat) + 1)) }) := by
  unfold World.removeEntity
  by_cases h1 : (w.entities.length : Int) ≤ e ∨ (w.entities.length : Int) + e < 0
  · rw [if_pos h1, if_pos h1]
  · rw [if_neg h1, if_neg h1]
    by_cases h2 : 0 ≤ e
    · rw [if_pos h2, if_pos h2, List.eraseIdx_eq_take_drop_succ]
    · rw [if_neg h2, if_neg h2, List.eraseIdx_eq_take_drop_succ]

/-- C3 counterexample: saving over an existing parseable destination whose
write fails still returns true (line 180 discards the SaveFile result), and
saving to a destination that cannot be pre-loaded returns false even though
it could be written; both directions contradict reporting failure exactly on
an unopenable or unwritable destination. -/
theorem save_write_failure_cex :
    ((World.mk 0 [] [] []).save (some []) false).1 = true ∧
    ((World.mk 0 [] [] []).save none true).1 = false :=
  ⟨rfl, rfl⟩

/-- C3 amended: World::save reports failure exactly when loading the
existing destination document fails; the result of the final write is
discarded, so an unwritable destination still reports success; the save
never raises and in every case the in-memory world is returned unmodified. -/
theorem save_reports_preload_only (w : World) (fs : Option (List XMLElem))
    (writable : Bool) :
    ((w.save fs writable).1 = false ↔ fs = none) ∧ (w.save fs writable).2.1 = w := by
  cases fs <;> simp [World.save]

/-- C4 counterexample: a Selection call whose lua_pcall fails does not
return to the host caller; it re-raises through luaL_error, which with no
protected frame in the host layer is a fatal abort, against the claim that
the error propagates to the calling host layer. -/
theorem selection_call_error_cex :
    Selection.call "f" (PCall.err "boom") = CallOutcome.fatal "boom" ∧
    (Selection.call "f" (PCall.err "boom")).isRet = false :=
  ⟨rfl, rfl⟩

/-- C4 amended: on a script runtime error the Selection call re-raises the
interpreter error text via luaL_error instead of returning an error value;
from the host layer, which holds no protected frame, the outcome is a fatal
abort carrying that text, not a caller-visible ScriptRuntimeError. -/
theorem selection_call_error_fatal (name msg : String) :
    Selection.call name (PCall.err msg) = CallOutcome.fatal msg ∧
    (Selection.call name (PCall.err msg)).isRet = false :=
  ⟨rfl, rfl⟩

/-- C4 amended witness at a concrete failing call. -/
theorem selection_call_error_fatal_witness :
    Selection.call "Update" (PCall.err "attempt to index a nil value") =
      CallOutcome.fatal "attempt to index a nil value" :=
  (selection_call_error_fatal "Update" "attempt to index a nil value").1

/-- C5 counterexample: registering callable 0 and then callable 1 under the
same name leaves the registry entry wrapping callable 0, against the claim
that the second registration replaces the first. -/
theorem register_replace_cex :
    lookupFunc (registerFunc (registerFunc [] "f" 0) "f" 1) "f" = some 0 ∧
    lookupFunc (registerFunc (registerFunc [] "f" 0) "f" 1) "f" ≠ some 1 := by
  exact ⟨rfl, by decide⟩

/-- C5 amended: re-registering a name already present in the registry is a
no-op, because the emplace of std::unordered_map does not overwrite, so a
subsequent lookup still yields the entry wrapping the first callable. -/
theorem register_second_noop (m : FunctionsMap) (name : String) (f g : Nat) :
    registerFunc (registerFunc m name f) name g = registerFunc m name f := by
  by_cases h : name ∈ m.map Prod.fst
  · simp [registerFunc, h]
  · have h2 : name ∈ (m ++ [(name, f)]).map Prod.fst := by simp
    simp [registerFunc, h, h2]

/-- C10: addScript inserts the file name and attaches the stored script
instance to this world exactly when the name is not already mapped; a mapped
name yields false and no change to the world or the script store. -/
theorem addScript_spec (w : World) (file : String) :
    (file ∈ w.scripts → w.addScript file = (false, w)) ∧
    (file ∉ w.scripts →
      (w.addScript file).1 = true ∧
      (w.addScript file).2.scripts = w.scripts ++ [file] ∧
      (w.addScript file).2.wid = w.wid ∧
      (w.addScript file).2.entities = w.entities ∧
      storeGet (w.addScript file).2.store file =
        (storeGet w.store file).map (fun s => s.setWorld (some w.wid)) ∧
      ∀ k, k ≠ file → storeGet (w.addScript file).2.store k = storeGet w.store k) := by
  constructor
  · intro h
    simp [World.addScript, h]
  · intro h
    refine ⟨?_, ?_, ?_, ?_, ?_, ?_⟩
    · simp [World.addScript, h]
    · simp [World.addScript, h]
    · simp [World.addScript, h]
    · simp [World.addScript, h]
    · simp only [World.addScript, if_neg h]
      exact storeGet_storeSet_same w.store file _
    · intro k hk
      simp only [World.addScript, if_neg h]
      exact storeGet_storeSet_other w.store file k _ (fun hh => hk hh.symm)

/-- C10 witness: a fresh name is inserted and attached, a mapped name is
rejected without change. -/
theorem addScript_spec_witness :
    ((World.mk 0 [] ["s"] [("s", ⟨false, none⟩)]).addScript "s" =
      (false, World.mk 0 [] ["s"] [("s", ⟨false, none⟩)])) ∧
    ((World.mk 0 [] [] [("s", ⟨false, none⟩)]).addScript "s").1 = true ∧
    storeGet ((World.mk 0 [] [] [("s", ⟨false, none⟩)]).addScript "s").2.store "s" =
      some ⟨false, some 0⟩ := by
  refine ⟨(addScript_spec _ "s").1 (by decide),
    ((addScript_spec _ "s").2 (by decide)).1, ?_⟩
  have h := ((addScript_spec (World.mk 0 [] [] [("s", ⟨false, none⟩)]) "s").2
    (by decide)).2.2.2.2.1
  rw [h]
  rfl

/-- C2 counterexample: after a tick in which the only attached script sets
its done flag, the script is removed from the mapping of the world, but its
current-world reference still points at that world instead of reading
null: removeScript (line 246) erases the map entry without detaching. -/
theorem tick_done_world_cex :
    (tickScripts (fun _ s => { s with deleteMe := true })
        (World.mk 0 [] ["s"] [("s", ⟨false, some 0⟩)])).scripts = [] ∧
    storeGet (tickScripts (fun _ s => { s with deleteMe := true })
        (World.mk 0 [] ["s"] [("s", ⟨false, some 0⟩)])).store "s" =
      some ⟨true, some 0⟩ := by
  exact ⟨rfl, rfl⟩

/-- C2 amended: after a World update tick during which an attached script
reads done, the script mapping of the world no longer contains it, but its
current-world reference still points at this world; it is set to null only
by the World destructor. -/
theorem tick_done_removes_mapping (move phys draw : Entity → Entity)
    (beh : String → Script → Script) (w : World) (file : String) (s0 : Script)
    (hnd : w.scripts.Nodup)
    (hmem : file ∈ w.scripts)
    (hget : storeGet w.store file = some s0)
    (hbeh : ∀ s, (beh file s).world = s.world)
    (hdone : (beh file (attachStep w.wid s0)).toDelete = true) :
    file ∉ (World.update move phys draw beh w).scripts ∧
    storeGet (World.update move phys draw beh w).store file =
      some (beh file (attachStep w.wid s0)) ∧
    (beh file (attachStep w.wid s0)).world = some w.wid := by
  have hattach : ∀ s : Script, (attachStep w.wid s).world = some w.wid := by
    intro s
    unfold attachStep
    by_cases h : s.world ≠ some w.wid
    · rw [if_pos h]; rfl
    · rw [if_neg h]; exact not_not.mp h
  set F : Store → String → Store :=
    fun st f => storeSet (storeSet st f (attachStep w.wid)) f (beh f) with hF
  have hother : ∀ st f, f ≠ file → storeGet (F st f) file = storeGet st file := by
    intro st f hf
    rw [hF]
    rw [storeGet_storeSet_other _ _ _ _ hf, storeGet_storeSet_other _ _ _ _ hf]
  have hself : ∀ st, storeGet (F st file) file =
      (storeGet st file).map (fun s => beh file (attachStep w.wid s)) := by
    intro st
    rw [hF]
    rw [storeGet_storeSet_same, storeGet_storeSet_same, Option.map_map]
    rfl
  have hst : storeGet (w.scripts.foldl F w.store) file =
      some (beh file (attachStep w.wid s0)) := by
    rw [foldl_storeGet_mem F file (fun s => beh file (attachStep w.wid s))
      hother hself w.scripts w.store hnd hmem, hget]
    rfl
  have hw1 : World.update move phys draw beh w = tickScripts beh
      { w with entities := sysTick move phys draw w.entities } := rfl
  have hdoneIn : doneInStore
      (({ w with entities := sysTick move phys draw w.entities } : World).scripts.foldl
        (fun st f => storeSet (storeSet st f
          (attachStep ({ w with entities := sysTick move phys draw w.entities} : World).wid)) f
          (beh f))
        ({ w with entities := sysTick move phys draw w.entities } : World).store) file = true := by
    show doneInStore (w.scripts.foldl F w.store) file = true
    unfold doneInStore
    rw [hst]
    exact hdone
  refine ⟨?_, ?_, ?_⟩
  · rw [hw1]
    unfold tickScripts
    rw [foldl_removeScript_scripts]
    apply mem_foldl_erase_out _ _ _ hnd
    exact List.mem_filter.mpr ⟨hmem, hdoneIn⟩
  · rw [hw1]
    unfold tickScripts
    rw [foldl_removeScript_store]
    exact hst
  · rw [hbeh, hattach]

/-- C2 amended witness: a concrete world with one attached script whose
update sets the done flag. -/
theorem tick_done_removes_mapping_witness :
    "s" ∉ (World.update id id id (fun _ s => ⟨true, s.world⟩)
        (World.mk 0 [] ["s"] [("s", ⟨false, none⟩)])).scripts ∧
    storeGet (World.update id id id (fun _ s => ⟨true, s.world⟩)
        (World.mk 0 [] ["s"] [("s", ⟨false, none⟩)])).store "s" =
      some ⟨true, some 0⟩ := by
  have h := tick_done_removes_mapping id id id (fun _ s => ⟨true, s.world⟩)
    (World.mk 0 [] ["s"] [("s", ⟨false, none⟩)]) "s" ⟨false, none⟩
    (by decide) (by decide) rfl (fun s => rfl) rfl
  refine ⟨h.1, ?_⟩
  rw [h.2.1]
  rfl

/-- C7 counterexample: removing a script from the mapping leaves its
current-world reference pointing at the world, so the invariant that every
attached reference is listed in the mapping of its world is broken by
removeScript (this state is also reached by the done-script removal of the
tick loop). -/
theorem script_world_inv_cex :
    scriptWorldInv (World.mk 0 [] ["s"] [("s", ⟨false, some 0⟩)]) ∧
    ((World.mk 0 [] ["s"] [("s", ⟨false, some 0⟩)]).removeScript "s").1 = true ∧
    ¬ scriptWorldInv ((World.mk 0 [] ["s"] [("s", ⟨false, some 0⟩)]).removeScript "s").2 := by
  refine ⟨by decide, rfl, by decide⟩

/-- C7 amended: the World destructor does set the current-world reference of
every script in its mapping to null before the World deallocates; the claimed
blanket invariant itself fails, because removeScript leaves the removed
script attached (see the counterexample). -/
theorem dtor_detaches_all (w : World) (file : String) (s : Script)
    (hnd : w.scripts.Nodup) (hmem : file ∈ w.scripts)
    (hget : storeGet (worldDtorDetach w) file = some s) :
    s.world = none := by
  have hother : ∀ (st : Store) (f : String), f ≠ file →
      storeGet (storeSet st f (fun s? => s?.setWorld none)) file = storeGet st file := by
    intro st f hf
    exact storeGet_storeSet_other _ _ _ _ hf
  have hself : ∀ st : Store, storeGet (storeSet st file (fun s? => s?.setWorld none)) file =
      (storeGet st file).map (fun s? => s?.setWorld none) := by
    intro st
    exact storeGet_storeSet_same _ _ _
  have h := foldl_storeGet_mem _ file (fun s? => s?.setWorld none) hother hself
    w.scripts w.store hnd hmem
  unfold worldDtorDetach at hget
  rw [h] at hget
  cases hcase : storeGet w.store file with
  | none => rw [hcase] at hget; cases hget
  | some s1 =>
    rw [hcase] at hget
    have : s1.setWorld none = s := Option.some.inj hget
    rw [← this]
    rfl

/-- C7 amended witness: destructor detachment on a concrete world with one
attached script. -/
theorem dtor_detaches_all_witness :
    storeGet (worldDtorDetach (World.mk 0 [] ["s"] [("s", ⟨false, some 0⟩)])) "s" =
      some ⟨false, none⟩ ∧
    (⟨false, none⟩ : Script).world = none :=
  ⟨rfl, dtor_detaches_all (World.mk 0 [] ["s"] [("s", ⟨false, some 0⟩)]) "s"
    ⟨false, none⟩ (by decide) (by decide) rfl⟩

theorem find?_world_append (pre post : List XMLElem) (r : XMLElem)
    (hpre : ∀ e ∈ pre, e.name ≠ "world") (hr : r.name = "world") :
    (pre ++ r :: post).find? (fun e => e.name == "world") = some r := by
  induction pre with
  | nil =>
    rw [List.nil_append]
    exact List.find?_cons_of_pos _ (by simpa using hr)
  | cons a rest ih =>
    rw [List.cons_append,
      List.find?_cons_of_neg _ (by simpa using hpre a (List.mem_cons_self a rest))]
    exact ih (fun e he => hpre e (List.mem_cons_of_mem a he))

theorem replaceWorldRoot_append (pre post : List XMLElem) (r : XMLElem)
    (cs : List XMLElem)
    (hpre : ∀ e ∈ pre, e.name ≠ "world") (hr : r.name = "world") :
    replaceWorldRoot (pre ++ r :: post) cs = pre ++ ⟨"world", "", cs⟩ :: post := by
  induction pre with
  | nil =>
    rw [List.nil_append, List.nil_append]
    unfold replaceWorldRoot
    rw [if_pos hr]
  | cons a rest ih =>
    rw [List.cons_append, List.cons_append]
    unfold replaceWorldRoot
    rw [if_neg (hpre a (List.mem_cons_self a rest))]
    rw [ih (fun e he => hpre e (List.mem_cons_of_mem a he))]

/-- C8: when the destination document already has a world root, save deletes
all of its existing children and replaces them with the serialized entity
records, leaving every other element of the document in place; when the
document lacks a world root, save creates one, inserts it first, and
proceeds. -/
theorem save_root_replacement (doc cs : List XMLElem) :
    (doc.find? (fun e => e.name == "world") = none →
      saveDoc doc cs = ⟨"world", "", cs⟩ :: doc) ∧
    (∀ pre r post, doc = pre ++ r :: post → (∀ e ∈ pre, e.name ≠ "world") →
      r.name = "world" →
      saveDoc doc cs = pre ++ ⟨"world", "", cs⟩ :: post) := by
  constructor
  · intro h
    unfold saveDoc
    rw [h]
  · intro pre r post hdoc hpre hr
    subst hdoc
    unfold saveDoc
    rw [find?_world_append pre post r hpre hr]
    exact replaceWorldRoot_append pre post r cs hpre hr

/-- C8 witness: a document without a world root gains one holding exactly
the entity records; a document with one keeps its other elements and the
root children are fully replaced. -/
theorem save_root_replacement_witness :
    saveDoc [⟨"a", "", []⟩] [⟨"entity", "x", []⟩] =
      [⟨"world", "", [⟨"entity", "x", []⟩]⟩, ⟨"a", "", []⟩] ∧
    saveDoc [⟨"a", "", []⟩, ⟨"world", "t", [⟨"old", "", []⟩]⟩, ⟨"b", "", []⟩]
        [⟨"entity", "x", []⟩] =
      [⟨"a", "", []⟩, ⟨"world", "", [⟨"entity", "x", []⟩]⟩, ⟨"b", "", []⟩] :=
  ⟨(save_root_replacement [⟨"a", "", []⟩] [⟨"entity", "x", []⟩]).1 rfl,
   (save_root_replacement _ [⟨"entity", "x", []⟩]).2
     [⟨"a", "", []⟩] ⟨"world", "t", [⟨"old", "", []⟩]⟩ [⟨"b", "", []⟩] rfl
     (by intro e he; simp at he; rw [he]; decide) rfl⟩

theorem mapEmplace_notMem (m : StrMap) (k v : String)
    (h : k ∉ m.map Prod.fst) : mapEmplace m k v = m ++ [(k, v)] := by
  unfold mapEmplace
  rw [if_neg h]

theorem foldl_emplace_fields (fs : StrMap) : ∀ acc : StrMap,
    (fs.map Prod.fst).Nodup → (∀ p ∈ fs, p.1 ≠ "" ∧ p.2 ≠ "") →
    (∀ p ∈ fs, p.1 ∉ acc.map Prod.fst) →
    (fs.map fieldToXML).foldl
      (fun m v => if v.name ≠ "" ∧ v.text ≠ "" then mapEmplace m v.name v.text else m)
      acc = acc ++ fs := by
  induction fs with
  | nil =>
    intro acc _ _ _
    rw [List.map_nil, List.foldl_nil, List.append_nil]
  | cons p rest ih =>
    intro acc hnd hne hacc
    rcases p with ⟨k, v⟩
    have hkv := hne (k, v) (List.mem_cons_self _ _)
    have hnd2 := List.map_cons Prod.fst (k, v) rest ▸ hnd
    have hk : k ∉ rest.map Prod.fst := (List.nodup_cons.mp hnd2).1
    have hacc2 : ∀ q ∈ rest, q.1 ∉ (acc ++ [(k, v)]).map Prod.fst := by
      intro q hq
      rw [List.map_append, List.mem_append]
      rintro (hin | hin)
      · exact hacc q (List.mem_cons_of_mem _ hq) hin
      · have hq1 : q.1 = k := by simpa using hin
        exact hk (hq1 ▸ List.mem_map_of_mem Prod.fst hq)
    have hstep : (if (fieldToXML (k, v)).name ≠ "" ∧ (fieldToXML (k, v)).text ≠ "" then
        mapEmplace acc (fieldToXML (k, v)).name (fieldToXML (k, v)).text else acc) =
        acc ++ [(k, v)] := by
      show (if k ≠ "" ∧ v ≠ "" then mapEmplace acc k v else acc) = acc ++ [(k, v)]
      rw [if_pos ⟨hkv.1, hkv.2⟩]
      exact mapEmplace_notMem acc k v (hacc (k, v) (List.mem_cons_self _ _))
    simp only [List.map_cons, List.foldl_cons]
    rw [hstep, ih (acc ++ [(k, v)]) (List.nodup_cons.mp hnd2).2
      (fun q hq => hne q (List.mem_cons_of_mem _ hq)) hacc2]
    simp

theorem varsOf_of_fields (fs : StrMap)
    (hnd : (fs.map Prod.fst).Nodup) (hne : ∀ p ∈ fs, p.1 ≠ "" ∧ p.2 ≠ "") :
    varsOf (fs.map fieldToXML) = fs := by
  unfold varsOf
  rw [foldl_emplace_fields fs [] hnd hne (by intro p _; simp)]
  rfl

theorem add_notMem (e : Entity) (n : String)
    (h : n ∉ e.components.map Prod.fst) :
    e.add n = ⟨e.components ++ [(n, [])]⟩ := by
  unfold Entity.add
  rw [if_neg h]

theorem map_unserialize_snoc (pre : List (String × ComponentData)) (n : String)
    (d vars : ComponentData) (h : ∀ p ∈ pre, p.1 ≠ n) :
    (pre ++ [(n, d)]).map
      (fun p : String × ComponentData => if p.1 = n then (p.1, vars) else p) =
      pre ++ [(n, vars)] := by
  rw [List.map_append]
  have h2 : pre.map
      (fun p : String × ComponentData => if p.1 = n then (p.1, vars) else p) = pre.map id := by
    apply List.map_congr_left
    intro p hp
    simp only [if_neg (h p hp), id_eq]
  rw [h2, List.map_id, List.map_cons, List.map_nil, if_pos rfl]

theorem loadComponent_snoc (pre : List (String × ComponentData))
    (c : String × ComponentData)
    (hdisj : ∀ p ∈ pre, p.1 ≠ c.1)
    (hnd : (c.2.map Prod.fst).Nodup)
    (hne : ∀ p ∈ c.2, p.1 ≠ "" ∧ p.2 ≠ "") :
    loadComponent ⟨pre⟩ (compToXML c) = ⟨pre ++ [c]⟩ := by
  have hmem : c.1 ∉ pre.map Prod.fst := by
    intro hin
    rcases List.mem_map.mp hin with ⟨p, hp, hp1⟩
    exact hdisj p hp hp1
  show ((Entity.mk pre).add c.1).unserializeComponent c.1 (varsOf (c.2.map fieldToXML)) =
    ⟨pre ++ [c]⟩
  rw [varsOf_of_fields c.2 hnd hne, add_notMem ⟨pre⟩ c.1 hmem]
  show Entity.mk ((pre ++ [(c.1, [])]).map
      (fun p : String × ComponentData => if p.1 = c.1 then (p.1, c.2) else p)) =
    ⟨pre ++ [c]⟩
  rw [map_unserialize_snoc pre c.1 [] c.2 hdisj, Prod.mk.eta]

theorem foldl_loadComponent (comps : List (String × ComponentData)) :
    ∀ pre : List (String × ComponentData),
    (comps.map Prod.fst).Nodup →
    (∀ c ∈ comps, ∀ p ∈ pre, p.1 ≠ c.1) →
    (∀ c ∈ comps, (c.2.map Prod.fst).Nodup) →
    (∀ c ∈ comps, ∀ p ∈ c.2, p.1 ≠ "" ∧ p.2 ≠ "") →
    (comps.map compToXML).foldl loadComponent ⟨pre⟩ = ⟨pre ++ comps⟩ := by
  induction comps with
  | nil =>
    intro pre _ _ _ _
    rw [List.map_nil, List.foldl_nil, List.append_nil]
  | cons c rest ih =>
    intro pre hnd hdisj hcnd hcne
    have hnd2 := List.map_cons Prod.fst c rest ▸ hnd
    have hk : c.1 ∉ rest.map Prod.fst := (List.nodup_cons.mp hnd2).1
    have hdisj2 : ∀ c? ∈ rest, ∀ p ∈ pre ++ [c], p.1 ≠ c?.1 := by
      intro c? hc p hp
      rw [List.mem_append] at hp
      rcases hp with hp | hp
      · exact hdisj c? (List.mem_cons_of_mem _ hc) p hp
      · have hpc : p = c := by simpa using hp
        rw [hpc]
        intro heq
        exact hk (heq ▸ List.mem_map_of_mem Prod.fst hc)
    simp only [List.map_cons, List.foldl_cons]
    rw [loadComponent_snoc pre c (hdisj c (List.mem_cons_self _ _))
      (hcnd c (List.mem_cons_self _ _)) (hcne c (List.mem_cons_self _ _))]
    rw [ih (pre ++ [c]) (List.nodup_cons.mp hnd2).2 hdisj2
      (fun c? hc => hcnd c? (List.mem_cons_of_mem _ hc))
      (fun c? hc => hcne c? (List.mem_cons_of_mem _ hc))]
    simp

theorem loadEntityElem_entityToXML (ent : Entity)
    (hnd : (ent.components.map Prod.fst).Nodup)
    (hcnd : ∀ c ∈ ent.components, (c.2.map Prod.fst).Nodup)
    (hcne : ∀ c ∈ ent.components, ∀ p ∈ c.2, p.1 ≠ "" ∧ p.2 ≠ "") :
    loadEntityElem (entityToXML ent) = ent := by
  show (ent.components.map compToXML).foldl loadComponent ⟨[]⟩ = ent
  rw [foldl_loadComponent ent.components [] hnd (by intro c _ p hp; cases hp) hcnd hcne]
  rfl

theorem find?_replaceWorldRoot (doc : List XMLElem) (cs : List XMLElem)
    (h : (doc.find? (fun e => e.name == "world")).isSome = true) :
    (replaceWorldRoot doc cs).find? (fun e => e.name == "world") =
      some ⟨"world", "", cs⟩ := by
  induction doc with
  | nil => cases h
  | cons e rest ih =>
    unfold replaceWorldRoot
    by_cases he : e.name = "world"
    · rw [if_pos he]
      exact List.find?_cons_of_pos _ (by simp)
    · rw [if_neg he, List.find?_cons_of_neg _ (by simpa using he)]
      apply ih
      rw [List.find?_cons_of_neg _ (by simpa using he)] at h
      exact h

theorem find?_saveDoc (doc cs : List XMLElem) :
    (saveDoc doc cs).find? (fun e => e.name == "world") = some ⟨"world", "", cs⟩ := by
  unfold saveDoc
  cases hf : doc.find? (fun e => e.name == "world") with
  | none => exact List.find?_cons_of_pos _ (by simp)
  | some r => exact find?_replaceWorldRoot doc cs (by rw [hf]; rfl)

theorem filter_entity_map (es : List Entity) :
    (es.map entityToXML).filter (fun e => e.name == "entity") = es.map entityToXML := by
  induction es with
  | nil => rfl
  | cons e rest ih =>
    rw [List.map_cons, List.filter_cons_of_pos (by simp [entityToXML]), ih]

theorem foldl_append_entities (L : List XMLElem) (w : World) :
    L.foldl (fun w? x => { w? with entities := w?.entities ++ [loadEntityElem x] }) w =
      { w with entities := w.entities ++ L.map loadEntityElem } := by
  induction L generalizing w with
  | nil => simp
  | cons x rest ih =>
    rw [List.foldl_cons, ih, List.map_cons]
    simp

theorem load_some_root (w0 : World) (doc : List XMLElem) (root : XMLElem)
    (h : doc.find? (fun e => e.name == "world") = some root) :
    w0.load (some doc) = (true,
      (root.children.filter (fun e => e.name == "entity")).foldl
        (fun w? x => { w? with entities := w?.entities ++ [loadEntityElem x] }) w0) := by
  simp only [World.load]
  rw [h]

/-- C1: saving a world whose components all serialize to non-empty field
names and values (with the distinct keys any std::map guarantees), then
loading into a fresh World of the same name (hence from the same save path
and document), reproduces the entity sequence exactly: same count, same
order, same component sets, same field values. The pre-load of the save is
assumed to succeed and the write to go through, as World::save requires for
the saved document to reach the file. -/
theorem save_load_roundtrip (w w0 : World) (doc : List XMLElem)
    (hck : ∀ ent ∈ w.entities, (ent.components.map Prod.fst).Nodup)
    (hfk : ∀ ent ∈ w.entities, ∀ c ∈ ent.components, (c.2.map Prod.fst).Nodup)
    (hne : ∀ ent ∈ w.entities, ∀ c ∈ ent.components, ∀ p ∈ c.2, p.1 ≠ "" ∧ p.2 ≠ "")
    (hw0 : w0.entities = []) :
    (w.save (some doc) true).1 = true ∧
    (w0.load (w.save (some doc) true).2.2).1 = true ∧
    (w0.load (w.save (some doc) true).2.2).2.entities = w.entities := by
  have hfs : (w.save (some doc) true).2.2 =
      some (saveDoc doc (w.entities.map entityToXML)) := rfl
  have hload := load_some_root w0 (saveDoc doc (w.entities.map entityToXML))
    ⟨"world", "", w.entities.map entityToXML⟩
    (find?_saveDoc doc (w.entities.map entityToXML))
  refine ⟨rfl, ?_, ?_⟩
  · rw [hfs, hload]
  · rw [hfs, hload]
    show ((((w.entities.map entityToXML).filter (fun e => e.name == "entity")).foldl
      (fun w? x => { w? with entities := w?.entities ++ [loadEntityElem x] }) w0)).entities =
      w.entities
    rw [filter_entity_map, foldl_append_entities, hw0]
    show [] ++ (w.entities.map entityToXML).map loadEntityElem = w.entities
    rw [List.nil_append, List.map_map]
    have hpt : w.entities.map (loadEntityElem ∘ entityToXML) = w.entities.map id := by
      apply List.map_congr_left
      intro ent hent
      exact loadEntityElem_entityToXML ent (hck ent hent) (hfk ent hent) (hne ent hent)
    rw [hpt, List.map_id]

/-- C1 witness: a concrete two-entity world, one entity holding a component
with two fields and one holding two components, survives the round trip. -/
theorem save_load_roundtrip_witness :
    ((World.mk 0 [⟨[("Physical", [("x", "1"), ("y", "2")])]⟩,
        ⟨[("Drawable", [("texture", "t.png")]), ("Name", [("name", "n")])]⟩] [] []).save
      (some []) true).1 = true ∧
    ((World.mk 1 [] [] []).load
      ((World.mk 0 [⟨[("Physical", [("x", "1"), ("y", "2")])]⟩,
          ⟨[("Drawable", [("texture", "t.png")]), ("Name", [("name", "n")])]⟩] [] []).save
        (some []) true).2.2).1 = true ∧
    ((World.mk 1 [] [] []).load
      ((World.mk 0 [⟨[("Physical", [("x", "1"), ("y", "2")])]⟩,
          ⟨[("Drawable", [("texture", "t.png")]), ("Name", [("name", "n")])]⟩] [] []).save
        (some []) true).2.2).2.entities =
      [⟨[("Physical", [("x", "1"), ("y", "2")])]⟩,
        ⟨[("Drawable", [("texture", "t.png")]), ("Name", [("name", "n")])]⟩] :=
  save_load_roundtrip
    (World.mk 0 [⟨[("Physical", [("x", "1"), ("y", "2")])]⟩,
      ⟨[("Drawable", [("texture", "t.png")]), ("Name", [("name", "n")])]⟩] [] [])
    (World.mk 1 [] [] []) []
    (by decide) (by decide) (by decide) rfl
